import Mathlib

/- Verification of the habit tracker core (src/frontend/src/App.js).

Canonical day keys (the "yyyy-MM-dd" strings obtained by formatting
startOfDay values) are modelled as integers: formatting of start-of-day
dates is injective, and subDays / isToday correspond to subtraction and
equality on the day index.  Timestamps reaching getCompletionRate are
likewise taken at day granularity, so differenceInDays(now, createdAt)
is the difference of day indices.  Clock reads (Date.now, new Date())
are passed in as explicit parameters. -/

/-- Completion record as stored in the completions list:
the object literal with fields id, habitId, date, completed in App.js. -/
structure Completion where
  id : String
  habitId : String
  date : Int
  completed : Bool
deriving DecidableEq

/-- Habit record as stored in the habits list:
the object literal with fields id, name, color, createdAt in App.js. -/
structure Habit where
  id : String
  name : String
  color : String
  createdAt : Int
deriving DecidableEq

/-- Application state: the two React state lists of App.js
(habits and completions). -/
structure AppState where
  habits : List Habit
  completions : List Completion
deriving DecidableEq

/-- Key test repeated throughout App.js:
c.habitId === habitId && c.date === dateKey. -/
def matchesKey (habitId : String) (day : Int) (c : Completion) : Bool :=
  c.habitId == habitId && c.date == day

/-- Record lookup used throughout App.js:
completions.find(c => c.habitId === habitId && c.date === dateKey). -/
def findCompletion (completions : List Completion) (habitId : String) (day : Int) :
    Option Completion :=
  completions.find? (matchesKey habitId day)

/-- Source isHabitCompleted: the truthiness of
completion && completion.completed, i.e. false when no record exists. -/
def isHabitCompleted (completions : List Completion) (habitId : String) (day : Int) : Bool :=
  match findCompletion completions habitId day with
  | some c => c.completed
  | none => false

/-- Number of completed records of the habit dated at most cursor; this is
the loop variant of the backward walk in calculateStreak. -/
def streakMeasure (habitId : String) (completions : List Completion) (cursor : Int) : Nat :=
  completions.countP (fun c => c.habitId == habitId && c.completed && decide (c.date ≤ cursor))

theorem countP_lt_countP_of_mem {α : Type} {p q : α → Bool} {l : List α} {c : α}
    (hmem : c ∈ l) (hq : q c = true) (hp : p c = false)
    (himp : ∀ x ∈ l, p x = true → q x = true) :
    l.countP p < l.countP q := by
  induction l with
  | nil => cases hmem
  | cons a t ih =>
    rw [List.countP_cons, List.countP_cons]
    have himpt : ∀ x ∈ t, p x = true → q x = true :=
      fun x hx => himp x (List.mem_cons_of_mem a hx)
    rcases List.mem_cons.mp hmem with rfl | hmt
    · have hle : t.countP p ≤ t.countP q := List.countP_mono_left himpt
      rw [if_neg (by simp [hp]), if_pos hq]
      omega
    · have hlt := ih hmt himpt
      have hif : (if p a then 1 else 0) ≤ (if q a then (1 : Nat) else 0) := by
        by_cases hpa : p a = true
        · rw [if_pos hpa, if_pos (himp a (List.mem_cons_self a t) hpa)]
        · rw [if_neg hpa]
          omega
      omega

theorem streakMeasure_mono (habitId : String) (completions : List Completion) (cursor : Int) :
    streakMeasure habitId completions (cursor - 1) ≤ streakMeasure habitId completions cursor := by
  apply List.countP_mono_left
  intro x _ hx
  simp only [Bool.and_eq_true, beq_iff_eq, decide_eq_true_eq] at hx ⊢
  exact ⟨⟨hx.1.1, hx.1.2⟩, by omega⟩

theorem streakMeasure_lt {habitId : String} {completions : List Completion} {cursor : Int}
    {c : Completion} (hf : findCompletion completions habitId cursor = some c)
    (hc : c.completed = true) :
    streakMeasure habitId completions (cursor - 1) < streakMeasure habitId completions cursor := by
  have hmem : c ∈ completions := List.mem_of_find?_eq_some hf
  have hkey : matchesKey habitId cursor c = true := List.find?_some hf
  simp only [matchesKey, Bool.and_eq_true, beq_iff_eq] at hkey
  have hq : (c.habitId == habitId && c.completed && decide (c.date ≤ cursor)) = true := by
    simp only [Bool.and_eq_true, beq_iff_eq, decide_eq_true_eq]
    exact ⟨⟨hkey.1, hc⟩, by omega⟩
  have hp : (c.habitId == habitId && c.completed && decide (c.date ≤ cursor - 1)) = false := by
    simp only [Bool.and_eq_false_iff]
    right
    simp only [decide_eq_false_iff_not]
    omega
  have himp : ∀ x ∈ completions,
      (x.habitId == habitId && x.completed && decide (x.date ≤ cursor - 1)) = true →
      (x.habitId == habitId && x.completed && decide (x.date ≤ cursor)) = true := by
    intro x _ hx
    simp only [Bool.and_eq_true, beq_iff_eq, decide_eq_true_eq] at hx ⊢
    exact ⟨⟨hx.1.1, hx.1.2⟩, by omega⟩
  exact countP_lt_countP_of_mem hmem hq hp himp

/-- Body of the while (true) loop of calculateStreak, as a function of the
two mutable locals currentDate (cursor) and streak.  Each continuing
iteration other than the single today skip consumes one completed record at
a strictly smaller day, which bounds the walk by the finite log. -/
def streakLoop (habitId : String) (completions : List Completion) (today : Int)
    (cursor : Int) (streak : Nat) : Nat :=
  match hf : findCompletion completions habitId cursor with
  | some c =>
      if hc : c.completed then
        streakLoop habitId completions today (cursor - 1) (streak + 1)
      else if h0 : streak = 0 ∧ cursor = today then
        streakLoop habitId completions today (cursor - 1) streak
      else
        streak
  | none =>
      if h0 : streak = 0 ∧ cursor = today then
        streakLoop habitId completions today (cursor - 1) streak
      else
        streak
termination_by 2 * streakMeasure habitId completions cursor +
  (if cursor = today then 1 else 0)
decreasing_by
  all_goals
    try obtain ⟨hs0, hct⟩ := h0
  all_goals
    try have h1 := streakMeasure_lt hf hc
  all_goals
    try have h2 := streakMeasure_mono habitId completions cursor
  all_goals
    split <;> (try split) <;> omega

/-- Source calculateStreak: the backward day-by-day walk starting at
today = startOfDay(new Date()) with streak = 0. -/
def calculateStreak (habit : Habit) (completions : List Completion) (today : Int) : Nat :=
  streakLoop habit.id completions today today 0

theorem streakLoop_found {habitId : String} {completions : List Completion} {today cursor : Int}
    {streak : Nat} {c : Completion} (hf : findCompletion completions habitId cursor = some c)
    (hc : c.completed = true) :
    streakLoop habitId completions today cursor streak =
      streakLoop habitId completions today (cursor - 1) (streak + 1) := by
  rw [streakLoop.eq_def, hf]
  simp [hc]

theorem streakLoop_skip {habitId : String} {completions : List Completion} {today cursor : Int}
    {streak : Nat} (hnc : isHabitCompleted completions habitId cursor = false)
    (h0 : streak = 0) (ht : cursor = today) :
    streakLoop habitId completions today cursor streak =
      streakLoop habitId completions today (cursor - 1) streak := by
  cases hfc : findCompletion completions habitId cursor with
  | none =>
    rw [streakLoop.eq_def, hfc]
    simp [h0, ht]
  | some c =>
    have hnc2 : c.completed = false := by
      unfold isHabitCompleted at hnc
      rw [hfc] at hnc
      exact hnc
    rw [streakLoop.eq_def, hfc]
    simp [hnc2, h0, ht]

theorem streakLoop_stop {habitId : String} {completions : List Completion} {today cursor : Int}
    {streak : Nat} (hnc : isHabitCompleted completions habitId cursor = false)
    (hstop : ¬(streak = 0 ∧ cursor = today)) :
    streakLoop habitId completions today cursor streak = streak := by
  cases hfc : findCompletion completions habitId cursor with
  | none =>
    rw [streakLoop.eq_def, hfc]
    simp [hstop]
  | some c =>
    have hnc2 : c.completed = false := by
      unfold isHabitCompleted at hnc
      rw [hfc] at hnc
      exact hnc
    rw [streakLoop.eq_def, hfc]
    simp [hnc2, hstop]

theorem streakLoop_run (habitId : String) (completions : List Completion) (today : Int) :
    ∀ (n : Nat) (cursor : Int) (streak : Nat),
    (∀ i : Nat, i < n → isHabitCompleted completions habitId (cursor - (i : Int)) = true) →
    isHabitCompleted completions habitId (cursor - (n : Int)) = false →
    (cursor - (n : Int) ≠ today ∨ streak + n ≠ 0) →
    streakLoop habitId completions today cursor streak = streak + n := by
  intro n
  induction n with
  | zero =>
    intro cursor streak _ hstop hne
    have hnc : isHabitCompleted completions habitId cursor = false := by
      simpa using hstop
    have hs : ¬(streak = 0 ∧ cursor = today) := by
      rintro ⟨h1, h2⟩
      rcases hne with h | h
      · simp at h
        exact h h2
      · omega
    simpa using streakLoop_stop hnc hs
  | succ n ih =>
    intro cursor streak hcomp hstop hne
    have h0 : isHabitCompleted completions habitId cursor = true := by
      have := hcomp 0 (by omega)
      simpa using this
    obtain ⟨c, hf, hc⟩ :
        ∃ c, findCompletion completions habitId cursor = some c ∧ c.completed = true := by
      unfold isHabitCompleted at h0
      cases hfc : findCompletion completions habitId cursor with
      | none => rw [hfc] at h0; simp at h0
      | some c =>
        rw [hfc] at h0
        exact ⟨c, rfl, h0⟩
    rw [streakLoop_found hf hc]
    have hcomp2 : ∀ i : Nat, i < n →
        isHabitCompleted completions habitId (cursor - 1 - (i : Int)) = true := by
      intro i hi
      have := hcomp (i + 1) (by omega)
      have harith : cursor - ((i : Int) + 1) = cursor - 1 - (i : Int) := by ring
      rw [Nat.cast_add, Nat.cast_one, harith] at this
      exact this
    have hstop2 : isHabitCompleted completions habitId (cursor - 1 - (n : Int)) = false := by
      have harith : cursor - ((n : Int) + 1) = cursor - 1 - (n : Int) := by ring
      rw [Nat.cast_add, Nat.cast_one, harith] at hstop
      exact hstop
    have := ih (cursor - 1) (streak + 1) hcomp2 hstop2 (Or.inr (by omega))
    rw [this]
    omega

/-- Whitespace trimming as performed by String.prototype.trim on the
habit name: drop whitespace characters from both ends of the text. -/
def jsTrim (s : String) : String :=
  ⟨((s.data.dropWhile Char.isWhitespace).reverse.dropWhile Char.isWhitespace).reverse⟩

/-- Source addHabit: when the trimmed name is truthy (nonempty), append a
new habit built from the trimmed name, the selected color, a fresh
Date.now id and createdAt = now; otherwise do nothing. -/
def addHabit (st : AppState) (name color freshId : String) (now : Int) : AppState :=
  if (jsTrim name).isEmpty then
    st
  else
    { st with habits := st.habits ++
        [{ id := freshId, name := jsTrim name, color := color, createdAt := now }] }

/-- Source deleteHabit: keep the habits with a different id and the
completion records with a different habitId. -/
def deleteHabit (st : AppState) (habitId : String) : AppState :=
  { habits := st.habits.filter (fun h => h.id != habitId),
    completions := st.completions.filter (fun c => c.habitId != habitId) }

/-- Per-record update applied by the map in toggleHabitCompletion:
flip completed on the records with the toggled key, keep the rest. -/
def flipIfKey (habitId : String) (day : Int) (c : Completion) : Completion :=
  if matchesKey habitId day c then { c with completed := !c.completed } else c

/-- Source toggleHabitCompletion: if a record for the (habitId, day) key
exists, map the flip over the list; otherwise append a new record with a
fresh id and completed = true. -/
def toggleHabitCompletion (st : AppState) (habitId : String) (day : Int) (freshId : String) :
    AppState :=
  match findCompletion st.completions habitId day with
  | some _ =>
      { st with completions := st.completions.map (flipIfKey habitId day) }
  | none =>
      { st with completions := st.completions ++
          [{ id := freshId, habitId := habitId, date := day, completed := true }] }

/-- Accessor completionsFor of the spec (section 4.3): the log filtered to
one habit, as in the inline filters by habitId in App.js. -/
def completionsFor (completions : List Completion) (habitId : String) : List Completion :=
  completions.filter (fun c => c.habitId == habitId)

/-- Source getCompletionRate at day granularity: daysElapsed is
Math.max(1, differenceInDays(now, createdAt) + 1), completedDays counts the
completed records of the habit in the whole log, and the result is
Math.round(completedDays / daysElapsed * 100), written as exact half-up
rounding of the nonnegative ratio. -/
def getCompletionRate (habit : Habit) (completions : List Completion) (now : Int) : Nat :=
  let daysElapsed : Nat := (max 1 (now - habit.createdAt + 1)).toNat
  let completedDays : Nat :=
    (completions.filter (fun c => c.habitId == habit.id && c.completed)).length
  (200 * completedDays + daysElapsed) / (2 * daysElapsed)

/-- Run description used to state C1, following the spec text: the days
start, start - 1, ..., start - (n - 1) each have a completed record and
day start - n does not count as completed. -/
def streakRun (habitId : String) (completions : List Completion) (start : Int) (n : Nat) :
    Prop :=
  (∀ i : Nat, i < n → isHabitCompleted completions habitId (start - (i : Int)) = true) ∧
  isHabitCompleted completions habitId (start - (n : Int)) = false

instance (habitId : String) (completions : List Completion) (start : Int) (n : Nat) :
    Decidable (streakRun habitId completions start n) := by
  unfold streakRun
  infer_instance

/-- C1: calculateStreak returns the length of the maximal consecutive run of
completed days with no gap ending at or before today: the run ends at today
when today is completed, and otherwise at yesterday, today being the one
day that may be skipped without incrementing while the count is still 0. -/
theorem calculateStreak_counts_run (habit : Habit) (completions : List Completion)
    (today : Int) (n : Nat)
    (h : streakRun habit.id completions
      (if isHabitCompleted completions habit.id today then today else today - 1) n) :
    calculateStreak habit completions today = n := by
  obtain ⟨hcomp, hstop⟩ := h
  unfold calculateStreak
  by_cases ht : isHabitCompleted completions habit.id today = true
  · rw [if_pos ht] at hcomp hstop
    have hn : n ≠ 0 := by
      intro h0
      rw [h0] at hstop
      simp at hstop
      rw [hstop] at ht
      exact Bool.false_ne_true ht
    have := streakLoop_run habit.id completions today n today 0 hcomp hstop
      (Or.inr (by omega))
    simpa using this
  · have ht2 : isHabitCompleted completions habit.id today = false := by
      simpa using ht
    rw [if_neg (by simp [ht2])] at hcomp hstop
    rw [streakLoop_skip ht2 rfl rfl]
    have := streakLoop_run habit.id completions today n (today - 1) 0 hcomp hstop
      (Or.inl (by omega))
    simpa using this

/-- Concrete check of the C1 instances: completing days 6..10 with today = 10
gives streak 5, and completing only days 6..9 (today incomplete) gives 4. -/
theorem calculateStreak_counts_run_witness :
    (streakRun "h"
      [⟨"c6", "h", 6, true⟩, ⟨"c7", "h", 7, true⟩, ⟨"c8", "h", 8, true⟩,
       ⟨"c9", "h", 9, true⟩, ⟨"c10", "h", 10, true⟩]
      (if isHabitCompleted
          [⟨"c6", "h", 6, true⟩, ⟨"c7", "h", 7, true⟩, ⟨"c8", "h", 8, true⟩,
           ⟨"c9", "h", 9, true⟩, ⟨"c10", "h", 10, true⟩] "h" 10
        then 10 else 10 - 1) 5 ∧
     calculateStreak ⟨"h", "read", "blue", 0⟩
      [⟨"c6", "h", 6, true⟩, ⟨"c7", "h", 7, true⟩, ⟨"c8", "h", 8, true⟩,
       ⟨"c9", "h", 9, true⟩, ⟨"c10", "h", 10, true⟩] 10 = 5) ∧
    (streakRun "h"
      [⟨"c6", "h", 6, true⟩, ⟨"c7", "h", 7, true⟩, ⟨"c8", "h", 8, true⟩,
       ⟨"c9", "h", 9, true⟩]
      (if isHabitCompleted
          [⟨"c6", "h", 6, true⟩, ⟨"c7", "h", 7, true⟩, ⟨"c8", "h", 8, true⟩,
           ⟨"c9", "h", 9, true⟩] "h" 10
        then 10 else 10 - 1) 4 ∧
     calculateStreak ⟨"h", "read", "blue", 0⟩
      [⟨"c6", "h", 6, true⟩, ⟨"c7", "h", 7, true⟩, ⟨"c8", "h", 8, true⟩,
       ⟨"c9", "h", 9, true⟩] 10 = 4) :=
  ⟨⟨by decide, calculateStreak_counts_run ⟨"h", "read", "blue", 0⟩ _ 10 5 (by decide)⟩,
   ⟨by decide, calculateStreak_counts_run ⟨"h", "read", "blue", 0⟩ _ 10 4 (by decide)⟩⟩

/-- Step-indexed version of the calculateStreak loop: runs at most fuel
iterations of the while body and returns none when the loop has not
reached its break within that many iterations. -/
def streakSteps (habitId : String) (completions : List Completion) (today : Int) :
    Nat → Int → Nat → Option Nat
  | 0, _, _ => none
  | fuel + 1, cursor, streak =>
    match findCompletion completions habitId cursor with
    | some c =>
        if c.completed then
          streakSteps habitId completions today fuel (cursor - 1) (streak + 1)
        else if streak = 0 ∧ cursor = today then
          streakSteps habitId completions today fuel (cursor - 1) streak
        else
          some streak
    | none =>
        if streak = 0 ∧ cursor = today then
          streakSteps habitId completions today fuel (cursor - 1) streak
        else
          some streak

theorem streakSteps_adequate (habitId : String) (completions : List Completion) (today : Int) :
    ∀ (fuel : Nat) (cursor : Int) (streak : Nat),
      2 * streakMeasure habitId completions cursor + (if cursor = today then 1 else 0) < fuel →
      streakSteps habitId completions today fuel cursor streak =
        some (streakLoop habitId completions today cursor streak) := by
  intro fuel
  induction fuel with
  | zero =>
    intro cursor streak h
    omega
  | succ fuel ih =>
    intro cursor streak h
    have e1 : (if cursor = today then (1 : Nat) else 0) ≤ 1 := by split <;> omega
    have e2 : (if cursor - 1 = today then (1 : Nat) else 0) ≤ 1 := by split <;> omega
    cases hfc : findCompletion completions habitId cursor with
    | some c =>
      by_cases hc : c.completed = true
      · have hstep : streakSteps habitId completions today (fuel + 1) cursor streak =
            streakSteps habitId completions today fuel (cursor - 1) (streak + 1) := by
          simp only [streakSteps]
          rw [hfc]
          simp [hc]
        have h1 := streakMeasure_lt hfc hc
        rw [hstep, streakLoop_found hfc hc]
        exact ih _ _ (by omega)
      · have hnc : isHabitCompleted completions habitId cursor = false := by
          unfold isHabitCompleted
          rw [hfc]
          simpa using hc
        by_cases h0 : streak = 0 ∧ cursor = today
        · have hstep : streakSteps habitId completions today (fuel + 1) cursor streak =
              streakSteps habitId completions today fuel (cursor - 1) streak := by
            simp only [streakSteps]
            rw [hfc]
            simp [hc, h0.1, h0.2]
          have h1 := streakMeasure_mono habitId completions cursor
          have hita : (if cursor = today then (1 : Nat) else 0) = 1 := by
            rw [if_pos h0.2]
          have hitb : (if cursor - 1 = today then (1 : Nat) else 0) = 0 := by
            rw [if_neg]
            have := h0.2
            omega
          rw [hstep, streakLoop_skip hnc h0.1 h0.2]
          exact ih _ _ (by omega)
        · have hstep : streakSteps habitId completions today (fuel + 1) cursor streak =
              some streak := by
            simp only [streakSteps]
            rw [hfc]
            simp only [hnc]
            simp [hc, h0]
          rw [hstep, streakLoop_stop hnc h0]
    | none =>
      have hnc : isHabitCompleted completions habitId cursor = false := by
        unfold isHabitCompleted
        rw [hfc]
      by_cases h0 : streak = 0 ∧ cursor = today
      · have hstep : streakSteps habitId completions today (fuel + 1) cursor streak =
            streakSteps habitId completions today fuel (cursor - 1) streak := by
          simp only [streakSteps]
          rw [hfc]
          simp [h0.1, h0.2]
        have h1 := streakMeasure_mono habitId completions cursor
        have hita : (if cursor = today then (1 : Nat) else 0) = 1 := by
          rw [if_pos h0.2]
        have hitb : (if cursor - 1 = today then (1 : Nat) else 0) = 0 := by
          rw [if_neg]
          have := h0.2
          omega
        rw [hstep, streakLoop_skip hnc h0.1 h0.2]
        exact ih _ _ (by omega)
      · have hstep : streakSteps habitId completions today (fuel + 1) cursor streak =
            some streak := by
          simp only [streakSteps]
          rw [hfc]
          simp [h0]
        rw [hstep, streakLoop_stop hnc h0]

/-- C7: the backward day-by-day walk of calculateStreak terminates on every
finite completion log: within 2 times the number of completed records of
the habit plus 2 iterations the loop reaches its break and returns the
streak, so currentStreak is a total function of the habit and the log. -/
theorem calculateStreak_terminates (habit : Habit) (completions : List Completion)
    (today : Int) :
    streakSteps habit.id completions today
        (2 * streakMeasure habit.id completions today + 2) today 0 =
      some (calculateStreak habit completions today) := by
  unfold calculateStreak
  apply streakSteps_adequate
  split <;> omega

theorem find?_eq_find?_filter {α : Type} (l : List α) (p q : α → Bool)
    (himp : ∀ x, p x = true → q x = true) :
    l.find? p = (l.filter q).find? p := by
  induction l with
  | nil => rfl
  | cons a t ih =>
    by_cases hpa : p a = true
    · rw [List.find?_cons_of_pos t hpa, List.filter_cons_of_pos (himp a hpa),
        List.find?_cons_of_pos (List.filter q t) hpa]
    · by_cases hqa : q a = true
      · rw [List.find?_cons_of_neg t (by simp [hpa]), List.filter_cons_of_pos hqa,
          List.find?_cons_of_neg (List.filter q t) (by simp [hpa]), ih]
      · rw [List.find?_cons_of_neg t (by simp [hpa]),
          List.filter_cons_of_neg (by simp [hqa]), ih]

theorem countP_eq_countP_filter {α : Type} (l : List α) (p q : α → Bool)
    (himp : ∀ x, p x = true → q x = true) :
    l.countP p = (l.filter q).countP p := by
  induction l with
  | nil => rfl
  | cons a t ih =>
    by_cases hqa : q a = true
    · rw [List.filter_cons_of_pos hqa, List.countP_cons, List.countP_cons, ih]
    · have hpa : p a = false := by
        cases hp : p a with
        | false => rfl
        | true => exact absurd (himp a hp) (by simpa using hqa)
      rw [List.filter_cons_of_neg (by simp [hqa]), List.countP_cons, if_neg (by simp [hpa]), ih]
      omega

theorem findCompletion_restrict (completions : List Completion) (habitId : String) (day : Int) :
    findCompletion completions habitId day =
      (completionsFor completions habitId).find? (matchesKey habitId day) := by
  unfold findCompletion completionsFor
  exact find?_eq_find?_filter completions _ _ (by
    intro x hx
    unfold matchesKey at hx
    simp only [Bool.and_eq_true] at hx
    exact hx.1)

theorem streakMeasure_restrict (habitId : String) (completions : List Completion) (cursor : Int) :
    streakMeasure habitId completions cursor =
      (completionsFor completions habitId).countP
        (fun c => c.habitId == habitId && c.completed && decide (c.date ≤ cursor)) := by
  unfold streakMeasure completionsFor
  exact countP_eq_countP_filter completions _ _ (by
    intro x hx
    simp only [Bool.and_eq_true] at hx
    exact hx.1.1)

theorem findCompletion_congr {completions1 completions2 : List Completion} {habitId : String}
    (h : completionsFor completions1 habitId = completionsFor completions2 habitId)
    (day : Int) :
    findCompletion completions1 habitId day = findCompletion completions2 habitId day := by
  rw [findCompletion_restrict, findCompletion_restrict, h]

theorem streakSteps_congr {completions1 completions2 : List Completion} {habitId : String}
    (today : Int)
    (h : completionsFor completions1 habitId = completionsFor completions2 habitId) :
    ∀ (fuel : Nat) (cursor : Int) (streak : Nat),
      streakSteps habitId completions1 today fuel cursor streak =
        streakSteps habitId completions2 today fuel cursor streak := by
  intro fuel
  induction fuel with
  | zero => intro cursor streak; rfl
  | succ fuel ih =>
    intro cursor streak
    simp only [streakSteps]
    rw [findCompletion_congr h cursor]
    cases findCompletion completions2 habitId cursor with
    | some c =>
      by_cases hc : c.completed = true
      · simp only [hc, if_true]
        exact ih (cursor - 1) (streak + 1)
      · simp only [Bool.not_eq_true] at hc
        simp only [hc, Bool.false_eq_true, if_false]
        by_cases h0 : streak = 0 ∧ cursor = today
        · rw [if_pos h0, if_pos h0]
          exact ih (cursor - 1) streak
        · rw [if_neg h0, if_neg h0]
    | none =>
      by_cases h0 : streak = 0 ∧ cursor = today
      · rw [if_pos h0, if_pos h0]
        exact ih (cursor - 1) streak
      · rw [if_neg h0, if_neg h0]

/-- C9: calculateStreak is not influenced by the completion records of other
habits: two logs with the same records for the given habit, in the same
order, yield the same streak whatever records for other habit ids they hold. -/
theorem calculateStreak_noninterference (habit : Habit)
    (completions1 completions2 : List Completion) (today : Int)
    (h : completionsFor completions1 habit.id = completionsFor completions2 habit.id) :
    calculateStreak habit completions1 today = calculateStreak habit completions2 today := by
  have hm : streakMeasure habit.id completions1 today =
      streakMeasure habit.id completions2 today := by
    rw [streakMeasure_restrict, streakMeasure_restrict, h]
  have h1 := streakSteps_adequate habit.id completions1 today
    (2 * streakMeasure habit.id completions1 today + 2) today 0 (by split <;> omega)
  have h2 := streakSteps_adequate habit.id completions2 today
    (2 * streakMeasure habit.id completions2 today + 2) today 0 (by split <;> omega)
  rw [hm] at h1
  rw [streakSteps_congr today h _ today 0] at h1
  rw [h1] at h2
  unfold calculateStreak
  exact Option.some.inj h2

/-- Concrete check of C9: adding a record of another habit does not change
the streak of habit h. -/
theorem calculateStreak_noninterference_witness :
    completionsFor
        [⟨"a", "h", 9, true⟩, ⟨"x", "other", 10, true⟩, ⟨"b", "h", 10, true⟩] "h" =
      completionsFor [⟨"a", "h", 9, true⟩, ⟨"b", "h", 10, true⟩] "h" ∧
    calculateStreak ⟨"h", "read", "blue", 0⟩
        [⟨"a", "h", 9, true⟩, ⟨"x", "other", 10, true⟩, ⟨"b", "h", 10, true⟩] 10 =
      calculateStreak ⟨"h", "read", "blue", 0⟩
        [⟨"a", "h", 9, true⟩, ⟨"b", "h", 10, true⟩] 10 :=
  ⟨by decide,
   calculateStreak_noninterference ⟨"h", "read", "blue", 0⟩ _ _ 10 (by decide)⟩

theorem flipIfKey_habitId (habitId : String) (day : Int) (c : Completion) :
    (flipIfKey habitId day c).habitId = c.habitId := by
  unfold flipIfKey
  split <;> rfl

theorem flipIfKey_date (habitId : String) (day : Int) (c : Completion) :
    (flipIfKey habitId day c).date = c.date := by
  unfold flipIfKey
  split <;> rfl

theorem matchesKey_flipIfKey (habitId habitId2 : String) (day day2 : Int) (c : Completion) :
    matchesKey habitId2 day2 (flipIfKey habitId day c) = matchesKey habitId2 day2 c := by
  unfold matchesKey
  rw [flipIfKey_habitId, flipIfKey_date]

theorem flipIfKey_of_match {habitId : String} {day : Int} {c : Completion}
    (h : matchesKey habitId day c = true) :
    flipIfKey habitId day c = { c with completed := !c.completed } := by
  unfold flipIfKey
  rw [if_pos h]

theorem findCompletion_map_flip (completions : List Completion) (habitId : String) (day : Int) :
    findCompletion (completions.map (flipIfKey habitId day)) habitId day =
      (findCompletion completions habitId day).map (flipIfKey habitId day) := by
  unfold findCompletion
  rw [List.find?_map]
  have hcomp : matchesKey habitId day ∘ flipIfKey habitId day = matchesKey habitId day := by
    funext c
    exact matchesKey_flipIfKey habitId habitId day day c
  rw [hcomp]

theorem toggle_habits_eq (st : AppState) (habitId : String) (day : Int) (freshId : String) :
    (toggleHabitCompletion st habitId day freshId).habits = st.habits := by
  unfold toggleHabitCompletion
  cases findCompletion st.completions habitId day <;> rfl

theorem toggle_completions_of_some {st : AppState} {habitId : String} {day : Int}
    {c : Completion} (freshId : String)
    (h : findCompletion st.completions habitId day = some c) :
    (toggleHabitCompletion st habitId day freshId).completions =
      st.completions.map (flipIfKey habitId day) := by
  unfold toggleHabitCompletion
  rw [h]

theorem toggle_completions_of_none {st : AppState} {habitId : String} {day : Int}
    (freshId : String) (h : findCompletion st.completions habitId day = none) :
    (toggleHabitCompletion st habitId day freshId).completions =
      st.completions ++
        [{ id := freshId, habitId := habitId, date := day, completed := true }] := by
  unfold toggleHabitCompletion
  rw [h]

/-- C2: toggleCompletion creates a completed = true record when none exists
for the (habitId, day) pair, flips the found record's completed field when
one exists, and applied twice restores the observable completion state of
the pair. -/
theorem toggleHabitCompletion_upsert (st : AppState) (habitId : String) (day : Int)
    (freshId freshId2 : String) :
    (findCompletion st.completions habitId day = none →
      (toggleHabitCompletion st habitId day freshId).completions =
        st.completions ++
          [{ id := freshId, habitId := habitId, date := day, completed := true }]) ∧
    (∀ c, findCompletion st.completions habitId day = some c →
      findCompletion (toggleHabitCompletion st habitId day freshId).completions habitId day =
        some { c with completed := !c.completed }) ∧
    isHabitCompleted
        (toggleHabitCompletion (toggleHabitCompletion st habitId day freshId)
          habitId day freshId2).completions habitId day =
      isHabitCompleted st.completions habitId day := by
  refine ⟨?_, ?_, ?_⟩
  · intro h
    exact toggle_completions_of_none freshId h
  · intro c hc
    rw [toggle_completions_of_some freshId hc, findCompletion_map_flip, hc]
    show some (flipIfKey habitId day c) = _
    rw [flipIfKey_of_match (List.find?_some hc)]
  · cases hfc : findCompletion st.completions habitId day with
    | none =>
      have h1 := toggle_completions_of_none freshId hfc
      have h2 : findCompletion (toggleHabitCompletion st habitId day freshId).completions
          habitId day =
          some { id := freshId, habitId := habitId, date := day, completed := true } := by
        rw [h1]
        unfold findCompletion at hfc ⊢
        rw [List.find?_append, hfc]
        simp [matchesKey]
      have h3 := toggle_completions_of_some freshId2 h2
      unfold isHabitCompleted
      rw [h3, findCompletion_map_flip, h2, hfc]
      show (flipIfKey habitId day
        { id := freshId, habitId := habitId, date := day, completed := true }).completed = false
      simp [flipIfKey, matchesKey]
    | some c =>
      have hmk : matchesKey habitId day c = true := List.find?_some hfc
      have h1 := toggle_completions_of_some freshId hfc
      have h2 : findCompletion (toggleHabitCompletion st habitId day freshId).completions
          habitId day = some (flipIfKey habitId day c) := by
        rw [h1, findCompletion_map_flip, hfc]
        rfl
      have h3 := toggle_completions_of_some freshId2 h2
      have hmk2 : matchesKey habitId day (flipIfKey habitId day c) = true := by
        rw [matchesKey_flipIfKey]
        exact hmk
      unfold isHabitCompleted
      rw [h3, findCompletion_map_flip, h2, hfc]
      show (flipIfKey habitId day (flipIfKey habitId day c)).completed = c.completed
      rw [flipIfKey_of_match hmk2, flipIfKey_of_match hmk]
      simp

/-- Concrete check of C2 at day 5: a first toggle on an empty log creates a
completed record, a toggle on an existing completed record flips it to
false, and a double toggle restores the observable state. -/
theorem toggleHabitCompletion_upsert_witness :
    ((toggleHabitCompletion ⟨[], []⟩ "h" 5 "r1").completions =
      [{ id := "r1", habitId := "h", date := 5, completed := true }]) ∧
    (findCompletion (toggleHabitCompletion ⟨[], [⟨"r0", "h", 5, true⟩]⟩ "h" 5 "r1").completions
        "h" 5 = some ⟨"r0", "h", 5, false⟩) ∧
    (isHabitCompleted
        (toggleHabitCompletion
          (toggleHabitCompletion ⟨[], [⟨"r0", "h", 5, true⟩]⟩ "h" 5 "r1") "h" 5
          "r2").completions "h" 5 =
      isHabitCompleted [⟨"r0", "h", 5, true⟩] "h" 5) := by
  refine ⟨?_, ?_, ?_⟩
  · have h := (toggleHabitCompletion_upsert ⟨[], []⟩ "h" 5 "r1" "r2").1 (by decide)
    simpa using h
  · have h := (toggleHabitCompletion_upsert ⟨[], [⟨"r0", "h", 5, true⟩]⟩ "h" 5 "r1" "r2").2.1
      ⟨"r0", "h", 5, true⟩ (by decide)
    simpa using h
  · exact (toggleHabitCompletion_upsert ⟨[], [⟨"r0", "h", 5, true⟩]⟩ "h" 5 "r1" "r2").2.2

theorem filter_not_match_map_flip (completions : List Completion) (habitId : String)
    (day : Int) :
    (completions.map (flipIfKey habitId day)).filter (fun c => !(matchesKey habitId day c)) =
      completions.filter (fun c => !(matchesKey habitId day c)) := by
  induction completions with
  | nil => rfl
  | cons a t ih =>
    rw [List.map_cons]
    by_cases hm : matchesKey habitId day a = true
    · rw [List.filter_cons_of_neg (by simp [matchesKey_flipIfKey, hm]),
        List.filter_cons_of_neg (by simp [hm]), ih]
    · have ha : flipIfKey habitId day a = a := by
        unfold flipIfKey
        rw [if_neg hm]
      rw [ha, List.filter_cons_of_pos (by simpa using hm),
        List.filter_cons_of_pos (by simpa using hm), ih]

/-- C10: toggleCompletion leaves the habit registry unchanged, leaves each
completion record with a different (habitId, date) key unchanged in value
and relative order, and either rewrites in place or appends exactly one
record. -/
theorem toggleHabitCompletion_frame (st : AppState) (habitId : String) (day : Int)
    (freshId : String) :
    (toggleHabitCompletion st habitId day freshId).habits = st.habits ∧
    (toggleHabitCompletion st habitId day freshId).completions.filter
        (fun c => !(matchesKey habitId day c)) =
      st.completions.filter (fun c => !(matchesKey habitId day c)) ∧
    ((toggleHabitCompletion st habitId day freshId).completions.length =
        st.completions.length ∨
      (toggleHabitCompletion st habitId day freshId).completions.length =
        st.completions.length + 1) := by
  cases hfc : findCompletion st.completions habitId day with
  | some c =>
    have h1 : (toggleHabitCompletion st habitId day freshId).completions =
        st.completions.map (flipIfKey habitId day) := by
      simp [toggleHabitCompletion, hfc]
    have h2 : (toggleHabitCompletion st habitId day freshId).habits = st.habits := by
      simp [toggleHabitCompletion, hfc]
    refine ⟨h2, ?_, ?_⟩
    · rw [h1, filter_not_match_map_flip]
    · left
      rw [h1, List.length_map]
  | none =>
    have h1 : (toggleHabitCompletion st habitId day freshId).completions =
        st.completions ++
          [{ id := freshId, habitId := habitId, date := day, completed := true }] := by
      simp [toggleHabitCompletion, hfc]
    have h2 : (toggleHabitCompletion st habitId day freshId).habits = st.habits := by
      simp [toggleHabitCompletion, hfc]
    refine ⟨h2, ?_, ?_⟩
    · rw [h1, List.filter_append]
      simp [matchesKey]
    · right
      rw [h1, List.length_append]
      rfl

/-- Invariant of the data model (spec section 3): at most one completion
record per (habitId, date) pair in the log. -/
def LogKeyed (completions : List Completion) : Prop :=
  completions.Pairwise (fun a b => ¬(a.habitId = b.habitId ∧ a.date = b.date))

instance (completions : List Completion) : Decidable (LogKeyed completions) := by
  unfold LogKeyed
  infer_instance

/-- C3: every operation preserves the at-most-one-record-per-(habitId, date)
invariant of the completion log; in particular toggleCompletion flips in
place and appends only when the pair has no record yet. -/
theorem operations_preserve_LogKeyed (st : AppState) (name color freshId : String) (now : Int)
    (deletedId habitId : String) (day : Int) (freshId2 : String)
    (h : LogKeyed st.completions) :
    LogKeyed (addHabit st name color freshId now).completions ∧
    LogKeyed (deleteHabit st deletedId).completions ∧
    LogKeyed (toggleHabitCompletion st habitId day freshId2).completions := by
  refine ⟨?_, ?_, ?_⟩
  · unfold addHabit
    split
    · exact h
    · exact h
  · unfold deleteHabit
    exact List.Pairwise.sublist (List.filter_sublist st.completions) h
  · cases hfc : findCompletion st.completions habitId day with
    | some c =>
      rw [toggle_completions_of_some freshId2 hfc]
      unfold LogKeyed at h ⊢
      rw [List.pairwise_map]
      apply List.Pairwise.imp _ h
      intro a b hab
      rw [flipIfKey_habitId, flipIfKey_habitId, flipIfKey_date, flipIfKey_date]
      exact hab
    | none =>
      rw [toggle_completions_of_none freshId2 hfc]
      unfold LogKeyed at h ⊢
      rw [List.pairwise_append]
      refine ⟨h, List.pairwise_singleton _ _, ?_⟩
      intro a ha b hb
      unfold findCompletion at hfc
      have hmiss := List.find?_eq_none.mp hfc a ha
      simp only [matchesKey, Bool.and_eq_true, beq_iff_eq, not_and] at hmiss
      simp only [List.mem_singleton] at hb
      subst hb
      intro hcontra
      exact hmiss hcontra.1 hcontra.2

/-- Concrete check of C3 on a two-record keyed log: the invariant survives
adding a habit, deleting a habit and toggling an existing pair. -/
theorem operations_preserve_LogKeyed_witness :
    LogKeyed [⟨"r1", "h", 1, true⟩, ⟨"r2", "h", 2, false⟩] ∧
    (LogKeyed (addHabit ⟨[⟨"h", "run", "blue", 0⟩],
        [⟨"r1", "h", 1, true⟩, ⟨"r2", "h", 2, false⟩]⟩ "yoga" "red" "h2" 3).completions ∧
     LogKeyed (deleteHabit ⟨[⟨"h", "run", "blue", 0⟩],
        [⟨"r1", "h", 1, true⟩, ⟨"r2", "h", 2, false⟩]⟩ "h").completions ∧
     LogKeyed (toggleHabitCompletion ⟨[⟨"h", "run", "blue", 0⟩],
        [⟨"r1", "h", 1, true⟩, ⟨"r2", "h", 2, false⟩]⟩ "h" 2 "r3").completions) :=
  ⟨by decide,
   operations_preserve_LogKeyed ⟨[⟨"h", "run", "blue", 0⟩],
      [⟨"r1", "h", 1, true⟩, ⟨"r2", "h", 2, false⟩]⟩ "yoga" "red" "h2" 3 "h" "h" 2 "r3"
     (by decide)⟩

/-- C5: deleteHabit removes the habit with the given id and every completion
record carrying that habitId, keeps all other habits, leaves completionsFor
of the deleted id empty, and is a no-op rather than an error when nothing
references the id. -/
theorem deleteHabit_cascades (st : AppState) (habitId : String) :
    (∀ h ∈ (deleteHabit st habitId).habits, h.id ≠ habitId) ∧
    (∀ h ∈ st.habits, h.id ≠ habitId → h ∈ (deleteHabit st habitId).habits) ∧
    completionsFor (deleteHabit st habitId).completions habitId = [] ∧
    ((∀ h ∈ st.habits, h.id ≠ habitId) → (deleteHabit st habitId).habits = st.habits) ∧
    ((∀ h ∈ st.habits, h.id ≠ habitId) → (∀ c ∈ st.completions, c.habitId ≠ habitId) →
      deleteHabit st habitId = st) := by
  refine ⟨?_, ?_, ?_, ?_, ?_⟩
  · intro h hmem
    unfold deleteHabit at hmem
    simp only [List.mem_filter, bne_iff_ne, ne_eq] at hmem
    exact hmem.2
  · intro h hmem hne
    unfold deleteHabit
    simp only [List.mem_filter, bne_iff_ne, ne_eq]
    exact ⟨hmem, hne⟩
  · unfold deleteHabit completionsFor
    rw [List.filter_eq_nil_iff]
    intro c hc
    simp only [List.mem_filter, bne_iff_ne, ne_eq] at hc
    simp only [beq_iff_eq]
    exact hc.2
  · intro hall
    unfold deleteHabit
    rw [List.filter_eq_self.mpr]
    intro h hmem
    simpa using hall h hmem
  · intro hh hc
    obtain ⟨habits, completions⟩ := st
    unfold deleteHabit
    simp only [AppState.mk.injEq]
    constructor
    · rw [List.filter_eq_self.mpr]
      intro h hmem
      simpa using hh h hmem
    · rw [List.filter_eq_self.mpr]
      intro c hmem
      simpa using hc c hmem

/-- Concrete check of C5: deleting habit h removes it together with both of
its records, leaves the other habit, and deleting an unknown id changes
nothing. -/
theorem deleteHabit_cascades_witness :
    ((deleteHabit ⟨[⟨"h", "run", "blue", 0⟩, ⟨"g", "read", "red", 0⟩],
        [⟨"r1", "h", 1, true⟩, ⟨"r2", "h", 2, false⟩]⟩ "h").habits =
      [⟨"g", "read", "red", 0⟩]) ∧
    completionsFor (deleteHabit ⟨[⟨"h", "run", "blue", 0⟩, ⟨"g", "read", "red", 0⟩],
        [⟨"r1", "h", 1, true⟩, ⟨"r2", "h", 2, false⟩]⟩ "h").completions "h" = [] ∧
    deleteHabit ⟨[⟨"g", "read", "red", 0⟩], [⟨"r1", "g", 1, true⟩]⟩ "missing" =
      ⟨[⟨"g", "read", "red", 0⟩], [⟨"r1", "g", 1, true⟩]⟩ := by
  refine ⟨by decide, ?_, ?_⟩
  · exact (deleteHabit_cascades ⟨[⟨"h", "run", "blue", 0⟩, ⟨"g", "read", "red", 0⟩],
      [⟨"r1", "h", 1, true⟩, ⟨"r2", "h", 2, false⟩]⟩ "h").2.2.1
  · exact (deleteHabit_cascades ⟨[⟨"g", "read", "red", 0⟩], [⟨"r1", "g", 1, true⟩]⟩
      "missing").2.2.2.2 (by decide) (by decide)

/-- C6: addHabit trims the name; a whitespace-only name leaves the state
unchanged with no error, and otherwise exactly one habit with the trimmed
name, the fresh id and createdAt = now is appended after the existing
habits, which are kept in order. -/
theorem addHabit_trims_or_skips (st : AppState) (name color freshId : String) (now : Int) :
    (jsTrim name = "" → addHabit st name color freshId now = st) ∧
    (jsTrim name ≠ "" →
      (addHabit st name color freshId now).habits =
        st.habits ++ [{ id := freshId, name := jsTrim name, color := color, createdAt := now }] ∧
      (addHabit st name color freshId now).completions = st.completions) := by
  constructor
  · intro h
    unfold addHabit
    rw [if_pos]
    rw [h]
    rfl
  · intro h
    unfold addHabit
    rw [if_neg]
    · exact ⟨rfl, rfl⟩
    · simpa [String.isEmpty_iff] using h

/-- Concrete check of C6: a whitespace-only name is ignored and a padded
name is trimmed and appended. -/
theorem addHabit_trims_or_skips_witness :
    (addHabit ⟨[⟨"g", "read", "red", 0⟩], []⟩ "   " "blue" "h1" 4 =
      ⟨[⟨"g", "read", "red", 0⟩], []⟩) ∧
    (addHabit ⟨[⟨"g", "read", "red", 0⟩], []⟩ " run " "blue" "h1" 4).habits =
      [⟨"g", "read", "red", 0⟩, ⟨"h1", "run", "blue", 4⟩] := by
  constructor
  · exact (addHabit_trims_or_skips ⟨[⟨"g", "read", "red", 0⟩], []⟩ "   " "blue" "h1" 4).1
      (by decide)
  · have h := ((addHabit_trims_or_skips ⟨[⟨"g", "read", "red", 0⟩], []⟩ " run " "blue" "h1"
      4).2 (by decide)).1
    simpa using h

/-- C8: isCompleted returns false when no record exists for the pair and the
record's completed field when one exists, so an absent record and an
explicit completed = false record are observably identical. -/
theorem isHabitCompleted_default_false (completions : List Completion) (habitId : String)
    (day : Int) :
    ((∀ c ∈ completions, ¬(c.habitId = habitId ∧ c.date = day)) →
      isHabitCompleted completions habitId day = false) ∧
    (∀ c, findCompletion completions habitId day = some c →
      isHabitCompleted completions habitId day = c.completed) := by
  constructor
  · intro h
    have hnone : findCompletion completions habitId day = none := by
      unfold findCompletion
      rw [List.find?_eq_none]
      intro c hc
      simp only [matchesKey, Bool.and_eq_true, beq_iff_eq, not_and]
      intro h1 h2
      exact h c hc ⟨h1, h2⟩
    unfold isHabitCompleted
    rw [hnone]
  · intro c hc
    unfold isHabitCompleted
    rw [hc]

/-- Concrete check of C8: no record for day 3 and an explicit completed =
false record for day 2 both read as not completed, and a completed record
for day 1 reads as completed. -/
theorem isHabitCompleted_default_false_witness :
    isHabitCompleted [⟨"r1", "h", 1, true⟩, ⟨"r2", "h", 2, false⟩] "h" 3 = false ∧
    isHabitCompleted [⟨"r1", "h", 1, true⟩, ⟨"r2", "h", 2, false⟩] "h" 2 = false ∧
    isHabitCompleted [⟨"r1", "h", 1, true⟩, ⟨"r2", "h", 2, false⟩] "h" 1 = true := by
  refine ⟨?_, ?_, ?_⟩
  · exact (isHabitCompleted_default_false
      [⟨"r1", "h", 1, true⟩, ⟨"r2", "h", 2, false⟩] "h" 3).1 (by decide)
  · exact (isHabitCompleted_default_false
      [⟨"r1", "h", 1, true⟩, ⟨"r2", "h", 2, false⟩] "h" 2).2 ⟨"r2", "h", 2, false⟩ (by decide)
  · exact (isHabitCompleted_default_false
      [⟨"r1", "h", 1, true⟩, ⟨"r2", "h", 2, false⟩] "h" 1).2 ⟨"r1", "h", 1, true⟩ (by decide)

/-- Calendar distance daysBetweenInclusive of the spec (section 4.1), so
that daysBetweenInclusive d d = 1; at day granularity it is
differenceInDays(finish, start) + 1. -/
def daysBetweenInclusive (start finish : Int) : Int :=
  finish - start + 1

theorem completedDays_eq (completions : List Completion) (habitId : String) :
    (completions.filter (fun c => c.habitId == habitId && c.completed)).length =
      (completionsFor completions habitId).countP (fun c => c.completed) := by
  unfold completionsFor
  rw [← List.countP_eq_length_filter, List.countP_filter]
  have hfun : (fun (c : Completion) => c.habitId == habitId && c.completed) =
      (fun (c : Completion) => c.completed && (c.habitId == habitId)) := by
    funext c
    exact Bool.and_comm _ _
  rw [hfun]

theorem round_ratio (c d : Nat) (hd : 0 < d) :
    round ((100 * c : ℚ) / (d : ℚ)) = ((200 * c + d) / (2 * d) : ℕ) := by
  have hd0 : (d : ℚ) ≠ 0 := by
    simp only [ne_eq, Nat.cast_eq_zero]
    omega
  rw [round_eq]
  have h1 : (100 * c : ℚ) / d + 1 / 2 = ((200 * c + d : ℕ) : ℚ) / ((2 * d : ℕ) : ℚ) := by
    push_cast
    field_simp
    ring
  rw [h1]
  have hnn : (0 : ℚ) ≤ ((200 * c + d : ℕ) : ℚ) / ((2 * d : ℕ) : ℚ) := by positivity
  rw [← Int.natCast_floor_eq_floor hnn, Nat.floor_div_eq_div]

/-- C4: getCompletionRate equals half-up rounding of
100 * completedDays / daysElapsed with daysElapsed clamped below by one day
and completedDays counted over the whole log; a habit created today has
rate 0 with no completion and rate 100 with exactly one. -/
theorem getCompletionRate_rounds (habit : Habit) (completions : List Completion) (now : Int) :
    daysBetweenInclusive now now = 1 ∧
    ((getCompletionRate habit completions now : ℤ) =
      round ((100 * ((completionsFor completions habit.id).countP (fun c => c.completed)) : ℚ) /
        ((max 1 (daysBetweenInclusive habit.createdAt now) : ℤ) : ℚ))) ∧
    (habit.createdAt = now →
      (completionsFor completions habit.id).countP (fun c => c.completed) = 0 →
      getCompletionRate habit completions now = 0) ∧
    (habit.createdAt = now →
      (completionsFor completions habit.id).countP (fun c => c.completed) = 1 →
      getCompletionRate habit completions now = 100) := by
  have hone : (1 : ℤ) ≤ max 1 (now - habit.createdAt + 1) := le_max_left _ _
  have hDpos : 0 < (max 1 (now - habit.createdAt + 1)).toNat := by omega
  have hcast : (((max 1 (now - habit.createdAt + 1)).toNat : ℤ)) =
      max 1 (now - habit.createdAt + 1) := by omega
  refine ⟨by unfold daysBetweenInclusive; ring, ?_, ?_, ?_⟩
  · show (((200 * (completions.filter (fun c => c.habitId == habit.id && c.completed)).length +
        (max 1 (now - habit.createdAt + 1)).toNat) /
        (2 * (max 1 (now - habit.createdAt + 1)).toNat) : ℕ) : ℤ) = _
    rw [completedDays_eq]
    have hden : ((max 1 (daysBetweenInclusive habit.createdAt now) : ℤ) : ℚ) =
        (((max 1 (now - habit.createdAt + 1)).toNat : ℕ) : ℚ) := by
      unfold daysBetweenInclusive
      rw [← hcast, Int.toNat_natCast]
      exact Int.cast_natCast _
    rw [hden]
    exact (round_ratio _ _ hDpos).symm
  · intro h1 h2
    have hlen := completedDays_eq completions habit.id
    rw [h2] at hlen
    show ((200 * (completions.filter (fun c => c.habitId == habit.id && c.completed)).length +
        (max 1 (now - habit.createdAt + 1)).toNat) /
        (2 * (max 1 (now - habit.createdAt + 1)).toNat) : ℕ) = 0
    rw [hlen, h1]
    have he : now - now + 1 = (1 : ℤ) := by ring
    rw [he]
    norm_num
  · intro h1 h2
    have hlen := completedDays_eq completions habit.id
    rw [h2] at hlen
    show ((200 * (completions.filter (fun c => c.habitId == habit.id && c.completed)).length +
        (max 1 (now - habit.createdAt + 1)).toNat) /
        (2 * (max 1 (now - habit.createdAt + 1)).toNat) : ℕ) = 100
    rw [hlen, h1]
    have he : now - now + 1 = (1 : ℤ) := by ring
    rw [he]
    norm_num

/-- Concrete check of C4: a habit created on day 7 checked on day 7 has rate
0 with no completion and rate 100 with one completed record. -/
theorem getCompletionRate_rounds_witness :
    getCompletionRate ⟨"h", "run", "blue", 7⟩ [] 7 = 0 ∧
    getCompletionRate ⟨"h", "run", "blue", 7⟩ [⟨"r1", "h", 7, true⟩] 7 = 100 :=
  ⟨(getCompletionRate_rounds ⟨"h", "run", "blue", 7⟩ [] 7).2.2.1 (by decide) (by decide),
   (getCompletionRate_rounds ⟨"h", "run", "blue", 7⟩ [⟨"r1", "h", 7, true⟩] 7).2.2.2
     (by decide) (by decide)⟩
